import Mathlib

/-!
Shallow embedding of `logical_calculi_tensors.ipynb`: a tensor encoding of a
fragment of predicate logic.  Vectors are `List Int`, matrices (rank-2
tensors) are `List (List Int)` of rows, and rank-3 tensors are lists of
matrices, mirroring the numpy arrays of the notebook.  `np.matmul` with a
1-D right operand is contraction over the last axis, embedded here as `dot`
(1-D left operand), `matVec` (2-D left operand) and `t3app` (3-D left
operand, applied to both arguments in the notebook's order: second argument
first).
-/

/-- Inner product of two integer vectors (`np.matmul` on two 1-D arrays).
Like `List.zipWith`, it truncates to the shorter operand. -/
def dot : List Int → List Int → Int
  | x :: xs, y :: ys => x * y + dot xs ys
  | _, _ => 0

/-- Matrix-vector product (`np.matmul` of a 2-D and a 1-D array): one inner
product per row. -/
def matVec : List (List Int) → List Int → List Int
  | [], _ => []
  | row :: rest, v => dot row v :: matVec rest v

/-- `np.ones(n, dtype=int)`: the all-ones vector. -/
def onesV (n : Nat) : List Int := List.replicate n 1

/-- `t = np.array([1, 0])`: the TRUE basis truth vector. -/
def t : List Int := [1, 0]

/-- `f = np.array([0, 1])`: the FALSE basis truth vector. -/
def f : List Int := [0, 1]

/-- Row `np.eye(N=1, M=N, k=i).squeeze()`: the length-`N` vector with a 1 at
position `i` (and all zeros when `N ≤ i`, as in numpy). -/
def oneHot (N i : Nat) : List Int :=
  (List.range N).map (fun j => if j = i then 1 else 0)

/-- `john = np.eye(N=1, M=3, k=0).squeeze()`. -/
def john : List Int := oneHot 3 0

/-- `chris = np.eye(N=1, M=3, k=1).squeeze()`. -/
def chris : List Int := oneHot 3 1

/-- `tom = np.eye(N=1, M=3, k=2).squeeze()`. -/
def tom : List Int := oneHot 3 2

/-- Error taxonomy of the design (only the member exercised here). -/
inductive Err where
  | IndexOutOfRange
deriving DecidableEq

/-- Modelled from the spec: the notebook only builds the three entity vectors
`john`, `chris`, `tom` by iterating `np.eye(N=1, M=3, k=i).squeeze()` over
`i in range(3)`; the index-checked constructor that signals `IndexOutOfRange`
for an index outside `[0, N)` is described in the design (§4.2, §7) but has
no implementation in the source.  Following the spec's words: given a domain
size `N` and an index `i` with `0 ≤ i < N`, produce the one-hot EntityVector
for position `i`, and signal `IndexOutOfRange` otherwise. -/
def entityVector (N i : Nat) : Except Err (List Int) :=
  if i < N then Except.ok (oneHot N i) else Except.error Err.IndexOutOfRange

/-- `mp = [[1, 1, 0], [0, 0, 1]]`: the "is a mathematician" predicate. -/
def mp : List (List Int) := [[1, 1, 0], [0, 0, 1]]

/-- `neg`: `np.eye(2)` with the two rows swapped. -/
def neg : List (List Int) := [[0, 1], [1, 0]]

/-- `lor`: the rank-3 disjunction tensor. -/
def lor : List (List (List Int)) :=
  [[[1, 1],
    [1, 0]],
   [[0, 0],
    [0, 1]]]

/-- `land`: the rank-3 conjunction tensor. -/
def land : List (List (List Int)) :=
  [[[1, 0],
    [0, 0]],
   [[0, 1],
    [1, 1]]]

/-- `cond`: the rank-3 conditional tensor (renamed: `cond` is taken by the
Bool conditional of the core library). -/
def condT : List (List (List Int)) :=
  [[[1, 0],
    [1, 1]],
   [[0, 1],
    [0, 0]]]

/-- `np.matmul(np.matmul(T, y), x)`: contract a rank-3 tensor with the second
argument `y` along its last axis, then with the first argument `x`. -/
def t3app (T : List (List (List Int))) (x y : List Int) : List Int :=
  matVec (T.map (fun m => matVec m y)) x

/-- `n = lambda x: np.matmul(neg, x)`. -/
def n (x : List Int) : List Int := matVec neg x

/-- `a = lambda x, y: np.matmul(np.matmul(land, y), x)`. -/
def a (x y : List Int) : List Int := t3app land x y

/-- `o = lambda x, y: np.matmul(np.matmul(lor, y), x)`. -/
def o (x y : List Int) : List Int := t3app lor x y

/-- `c = lambda x, y: np.matmul(np.matmul(cond, y), x)`. -/
def c (x y : List Int) : List Int := t3app condT x y

/-- `c2 = lambda x, y: o(n(x), y)`: the conditional rebuilt from disjunction
and negation. -/
def c2 (x y : List Int) : List Int := o (n x) y

/-- `xor = lambda x, y: a(o(x, y), o(n(x), n(y)))` (renamed: `xor` is taken
by the Bool operation of the core library). -/
def xorL (x y : List Int) : List Int := a (o x y) (o (n x) (n y))

/-- One row of the notebook's truth table: the dict
`{"first": ..., "second": ..., "result": ...}`. -/
structure Row where
  first : List Int
  second : List Int
  result : List Int
deriving DecidableEq

/-- `truth_table(func)`: apply a binary connective to all pairs from
`itertools.product([t, f], [t, f])`, in that enumeration order. -/
def truth_table (func : List Int → List Int → List Int) : List Row :=
  ([t, f].flatMap (fun x => [t, f].map (fun y => (x, y)))).map
    (fun input_pair =>
      { first := input_pair.1
        second := input_pair.2
        result := func input_pair.1 input_pair.2 })

/-- `dogs = np.array([1, 1, 0])`. -/
def dogs : List Int := [1, 1, 0]

/-- `isdog`: diagonal filter for the dogs. -/
def isdog : List (List Int) := [[1, 0, 0], [0, 1, 0], [0, 0, 0]]

/-- `entities = np.ones(3, dtype=int)`: the universe vector. -/
def entities : List Int := onesV 3

/-- `brown`: diagonal filter for the brown entities. -/
def brown : List (List Int) := [[0, 0, 0], [0, 1, 0], [0, 0, 1]]

/-- `black`: diagonal filter for the black entities. -/
def black : List (List Int) := [[1, 0, 0], [0, 0, 0], [0, 0, 0]]

/-- `cats = np.array([0, 0, 1])`. -/
def cats : List Int := [0, 0, 1]

/-- `iscat`: diagonal filter for the cats. -/
def iscat : List (List Int) := [[0, 0, 0], [0, 0, 0], [0, 0, 1]]

/-- The square diagonal matrix with diagonal `d` (rows of the numpy literals
`isdog`, `brown`, `black`, `iscat` all have this shape). -/
def diag : List Int → List (List Int)
  | [] => []
  | p :: ps => (p :: ps.map (fun _ => (0 : Int))) :: (diag ps).map (fun row => (0 : Int) :: row)

/-- The spec's `extensionOf(P) = P · universe` (the notebook computes it as
`np.matmul(isdog, entities)`). -/
def extensionOf (P : List (List Int)) : List Int := matVec P (onesV P.length)

/-- The notebook's `forall(X, Y)` specialised to rank-2 arguments, which is
how the notebook calls it (`forall(isdog, brown)` etc.):
`ones = np.ones(X.shape[0])`, `x = np.matmul(X, ones)`,
`y = np.matmul(Y, ones)`, return `t` if `(x == x * y).all()` else `f`. -/
def forallM (X Y : List (List Int)) : List Int :=
  if matVec X (onesV X.length) =
      List.zipWith (· * ·) (matVec X (onesV X.length)) (matVec Y (onesV X.length))
  then t else f

/-- The notebook's `forall(X, Y)` specialised to rank-1 (vector) arguments:
`np.matmul` of two 1-D arrays is the inner product, so `x` and `y` are the
scalars `dot X ones` and `dot Y ones`, and `(x == x * y).all()` is the
scalar test `x = x * y`. -/
def forallV (X Y : List Int) : List Int :=
  if dot X (onesV X.length) = dot X (onesV X.length) * dot Y (onesV X.length)
  then t else f

/-- The notebook's `exists(X)` on a rank-1 argument: `t` if
`np.any(X != 0)` else `f` (renamed: `exists` is a Lean keyword). -/
def existsV (X : List Int) : List Int :=
  if X.any (fun v => v != 0) then t else f

/-- The notebook's `exists(X)` on a rank-2 argument (it is applied to the
predicate tensor `iscat` directly): `np.any` ranges over every entry. -/
def existsM (X : List (List Int)) : List Int :=
  if X.any (fun row => row.any (fun v => v != 0)) then t else f

/-! Theorems. -/

/-- C2: for each of the three binary connective tensors, contracting with the
second argument first and then with the first argument reproduces the
standard truth table: disjunction is TRUE except on (F,F); conjunction is
TRUE only on (T,T); conditional is FALSE only on (T,F). -/
theorem connective_truth_tables :
    (o t t = t ∧ o t f = t ∧ o f t = t ∧ o f f = f) ∧
    (a t t = t ∧ a t f = f ∧ a f t = f ∧ a f f = f) ∧
    (c t t = t ∧ c t f = f ∧ c f t = t ∧ c f f = t) := by
  decide

/-- C6: on every ordered pair of basis truth vectors, the CONDITIONAL tensor
agrees with the composition `disjunction(negation(x), y)` (the notebook's
`c2`). -/
theorem conditional_via_disjunction :
    c t t = c2 t t ∧ c t f = c2 t f ∧ c f t = c2 f t ∧ c f f = c2 f f := by
  decide

/-- C7: the derived exclusive-or
`conjunction(disjunction(x, y), disjunction(negation(x), negation(y)))`
satisfies the exclusive-or truth table on all four basis pairs. -/
theorem xor_truth_table :
    xorL t t = f ∧ xorL t f = t ∧ xorL f t = t ∧ xorL f f = f := by
  decide

/-- C9: applying the NEGATION tensor twice returns each basis truth vector
unchanged. -/
theorem double_negation :
    matVec neg (matVec neg t) = t ∧ matVec neg (matVec neg f) = f := by
  decide

/-- C8: for every binary connective function, `truth_table` returns exactly
four (first, second, result) rows, the i-th result being the function applied
to the i-th input pair, with the pairs in the order (T,T), (T,F), (F,T),
(F,F). -/
theorem truth_table_spec (func : List Int → List Int → List Int) :
    truth_table func =
      [⟨t, t, func t t⟩, ⟨t, f, func t f⟩, ⟨f, t, func f t⟩, ⟨f, f, func f f⟩] :=
  rfl

/-! Lemmas about `diag`, `matVec` and 0/1 vectors. -/

lemma dot_replicate_zero (k : Nat) (v : List Int) :
    dot (List.replicate k 0) v = 0 := by
  induction k generalizing v with
  | zero => rfl
  | succ m ih =>
    cases v with
    | nil => rfl
    | cons x w => simp [List.replicate_succ, dot, ih]

lemma matVec_map_cons_zero (rows : List (List Int)) (x : Int) (v : List Int) :
    matVec (rows.map (fun row => (0 : Int) :: row)) (x :: v) = matVec rows v := by
  induction rows with
  | nil => rfl
  | cons r rs ih => simp [matVec, dot, ih]

lemma diag_length (d : List Int) : (diag d).length = d.length := by
  induction d with
  | nil => rfl
  | cons p ps ih => simp [diag, ih]

lemma matVec_diag (d : List Int) (v : List Int) (h : d.length ≤ v.length) :
    matVec (diag d) v = List.zipWith (· * ·) d v := by
  induction d generalizing v with
  | nil => rfl
  | cons p ps ih =>
    cases v with
    | nil => simp at h
    | cons x w =>
      have hw : ps.length ≤ w.length := by simpa using h
      simp [diag, matVec, dot, dot_replicate_zero, matVec_map_cons_zero, ih w hw]

lemma zipWith_mul_ones (d : List Int) (m : Nat) (h : d.length ≤ m) :
    List.zipWith (· * ·) d (List.replicate m 1) = d := by
  induction d generalizing m with
  | nil => rfl
  | cons p ps ih =>
    cases m with
    | zero => simp at h
    | succ k =>
      have hk : ps.length ≤ k := by simpa using h
      simp [List.replicate_succ, ih k hk]

lemma zipWith_mul_self (d : List Int) (h : ∀ v ∈ d, v = 0 ∨ v = 1) :
    List.zipWith (· * ·) d d = d := by
  induction d with
  | nil => rfl
  | cons p ps ih =>
    have hp : p = 0 ∨ p = 1 := h p (List.mem_cons_self p ps)
    have hps := ih (fun v hv => h v (List.mem_cons_of_mem p hv))
    rcases hp with rfl | rfl <;>
      · rw [List.zipWith_cons_cons, hps]
        norm_num

lemma incl_iff : ∀ (dx dy : List Int), dx.length = dy.length →
    (∀ v ∈ dx, v = 0 ∨ v = 1) → (∀ v ∈ dy, v = 0 ∨ v = 1) →
    (dx = List.zipWith (· * ·) dx dy ↔
      ∀ i ∈ List.range dx.length, dx.getD i 0 = 1 → dy.getD i 0 = 1)
  | [], [], _, _, _ => by simp
  | [], _ :: _, h, _, _ => by simp at h
  | _ :: _, [], h, _, _ => by simp at h
  | p :: ps, q :: qs, hlen, hx, hy => by
    have hp : p = 0 ∨ p = 1 := hx p (List.mem_cons_self p ps)
    have hq : q = 0 ∨ q = 1 := hy q (List.mem_cons_self q qs)
    have ih := incl_iff ps qs (by simpa using hlen)
      (fun v hv => hx v (List.mem_cons_of_mem p hv))
      (fun v hv => hy v (List.mem_cons_of_mem q hv))
    have h1 : (p = p * q) ↔ (p = 1 → q = 1) := by
      rcases hp with rfl | rfl <;> rcases hq with rfl | rfl <;> decide
    have h3 : (∀ i ∈ List.range (p :: ps).length,
          (p :: ps).getD i 0 = 1 → (q :: qs).getD i 0 = 1)
        ↔ ((p = 1 → q = 1) ∧
            ∀ j ∈ List.range ps.length, ps.getD j 0 = 1 → qs.getD j 0 = 1) := by
      rw [List.length_cons, List.range_succ_eq_map]
      simp [List.getD_cons_zero, List.getD_cons_succ]
    rw [h3, List.zipWith_cons_cons]
    simp only [List.cons.injEq]
    exact and_congr h1 ih

lemma forallM_diag (dx dy : List Int) (hlen : dx.length = dy.length) :
    forallM (diag dx) (diag dy) =
      if dx = List.zipWith (· * ·) dx dy then t else f := by
  unfold forallM onesV
  rw [diag_length,
    matVec_diag dx (List.replicate dx.length 1) (by simp),
    matVec_diag dy (List.replicate dx.length 1) (by simp [hlen]),
    zipWith_mul_ones dx dx.length le_rfl,
    zipWith_mul_ones dy dx.length hlen.ge]

/-- C1 counterexample: on rank-1 extension vectors, `np.matmul(X, ones)` is
the inner product (a scalar), so with the extension vectors cats = (0,0,1)
and brown = (0,1,1) the notebook's `forall` compares 1 with 1 * 2 and
returns FALSE, not the TRUE demanded by the claim. -/
theorem forallV_cats_brown_counterexample :
    forallV cats [0, 1, 1] = f ∧ ¬ forallV cats [0, 1, 1] = t := by
  decide

/-- C1 amended: `forall` applied the way the notebook applies it — to N×N
diagonal 0/1 predicate tensors — returns TRUE exactly when every position
whose diagonal entry is 1 in the first tensor also has diagonal entry 1 in
the second (set inclusion of the contracted extensions), and FALSE
otherwise. -/
theorem forall_diag_spec (dx dy : List Int) (hlen : dx.length = dy.length)
    (hx : ∀ v ∈ dx, v = 0 ∨ v = 1) (hy : ∀ v ∈ dy, v = 0 ∨ v = 1) :
    (forallM (diag dx) (diag dy) = t ↔
      ∀ i ∈ List.range dx.length, dx.getD i 0 = 1 → dy.getD i 0 = 1) ∧
    (forallM (diag dx) (diag dy) = f ↔
      ¬ ∀ i ∈ List.range dx.length, dx.getD i 0 = 1 → dy.getD i 0 = 1) := by
  rw [forallM_diag dx dy hlen]
  by_cases hc : dx = List.zipWith (· * ·) dx dy
  · rw [if_pos hc]
    have hincl := (incl_iff dx dy hlen hx hy).mp hc
    exact ⟨⟨fun _ => hincl, fun _ => rfl⟩,
      ⟨fun ht => absurd ht (by decide), fun hni => absurd hincl hni⟩⟩
  · rw [if_neg hc]
    have hincl : ¬ ∀ i ∈ List.range dx.length, dx.getD i 0 = 1 → dy.getD i 0 = 1 :=
      fun hi => hc ((incl_iff dx dy hlen hx hy).mpr hi)
    exact ⟨⟨fun ht => absurd ht (by decide), fun hi => absurd hi hincl⟩,
      ⟨fun _ => hincl, fun _ => rfl⟩⟩

/-- C1 witness: the notebook's quantified sentences "all cats are brown"
(TRUE) and "all brown things are cats" (FALSE), on the diagonal tensors
iscat = diag (0,0,1) and brown = diag (0,1,1). -/
theorem forall_diag_spec_witness :
    forallM (diag [0, 0, 1]) (diag [0, 1, 1]) = t ∧
    forallM (diag [0, 1, 1]) (diag [0, 0, 1]) = f := by
  constructor
  · exact (forall_diag_spec [0, 0, 1] [0, 1, 1] (by decide) (by decide) (by decide)).1.mpr
      (by decide)
  · exact (forall_diag_spec [0, 1, 1] [0, 0, 1] (by decide) (by decide) (by decide)).2.mpr
      (by decide)

/-- C5: for every N×N diagonal 0/1 predicate filter, the extension is the
product with the universe vector, and applying the filter to its own
extension changes nothing (idempotence). -/
theorem extension_roundtrip (d : List Int) (h : ∀ v ∈ d, v = 0 ∨ v = 1) :
    extensionOf (diag d) = matVec (diag d) (onesV (diag d).length) ∧
    matVec (diag d) (matVec (diag d) (onesV (diag d).length)) =
      matVec (diag d) (onesV (diag d).length) := by
  have h1 : matVec (diag d) (onesV (diag d).length) = d := by
    rw [diag_length]
    unfold onesV
    rw [matVec_diag d (List.replicate d.length 1) (by simp),
      zipWith_mul_ones d d.length le_rfl]
  refine ⟨rfl, ?_⟩
  rw [h1, matVec_diag d d le_rfl, zipWith_mul_self d h]

/-- C5 witness: the round trip at the notebook's `isdog = diag (1,1,0)`. -/
theorem extension_roundtrip_witness :
    extensionOf (diag [1, 1, 0]) = matVec (diag [1, 1, 0]) (onesV (diag [1, 1, 0]).length) ∧
    matVec (diag [1, 1, 0]) (matVec (diag [1, 1, 0]) (onesV (diag [1, 1, 0]).length)) =
      matVec (diag [1, 1, 0]) (onesV (diag [1, 1, 0]).length) :=
  extension_roundtrip [1, 1, 0] (by decide)

/-- C3: the one-hot entity constructor succeeds exactly on indices
0 ≤ i < N, returning the length-N vector whose only 1 sits at position i,
and signals IndexOutOfRange on every other index. -/
theorem entityVector_spec (N i : Nat) :
    ((∃ v, entityVector N i = Except.ok v) ↔ i < N) ∧
    (i < N → entityVector N i = Except.ok (oneHot N i) ∧
      (oneHot N i).length = N ∧
      ∀ j, j < N → (oneHot N i).getD j 0 = if j = i then 1 else 0) ∧
    (N ≤ i → entityVector N i = Except.error Err.IndexOutOfRange) := by
  refine ⟨⟨?_, ?_⟩, ?_, ?_⟩
  · rintro ⟨v, hv⟩
    by_contra hlt
    unfold entityVector at hv
    rw [if_neg hlt] at hv
    exact Except.noConfusion hv
  · intro h
    exact ⟨oneHot N i, by unfold entityVector; rw [if_pos h]⟩
  · intro h
    refine ⟨by unfold entityVector; rw [if_pos h], by simp [oneHot], ?_⟩
    intro j hj
    unfold oneHot
    rw [List.getD_eq_getElem?_getD]
    simp [List.getElem?_map, List.getElem?_range, hj]
  · intro h
    unfold entityVector
    rw [if_neg (Nat.not_lt.mpr h)]

/-- C3 witness: index 1 of a domain of size 3 yields the one-hot vector for
chris; index 5 is rejected. -/
theorem entityVector_spec_witness :
    entityVector 3 1 = Except.ok (oneHot 3 1) ∧
    entityVector 3 5 = Except.error Err.IndexOutOfRange :=
  ⟨((entityVector_spec 3 1).2.1 (by decide)).1, (entityVector_spec 3 5).2.2 (by decide)⟩

/-- C4: on every integer vector, `exists` returns TRUE exactly when some
coordinate is nonzero and FALSE exactly when all coordinates are zero; being
a total function of the vector, it is defined on every 0/1 extension vector,
the all-zero and all-ones ones included. -/
theorem exists_vector_spec (X : List Int) :
    (existsV X = t ↔ ∃ v ∈ X, v ≠ 0) ∧ (existsV X = f ↔ ∀ v ∈ X, v = 0) := by
  unfold existsV
  by_cases h : X.any (fun v => v != 0) = true
  · rw [if_pos h]
    simp only [List.any_eq_true, bne_iff_ne, ne_eq] at h
    obtain ⟨v, hvX, hv⟩ := h
    exact ⟨⟨fun _ => ⟨v, hvX, hv⟩, fun _ => rfl⟩,
      ⟨fun ht => absurd ht (by decide), fun hall => absurd (hall v hvX) hv⟩⟩
  · rw [if_neg h]
    simp only [List.any_eq_true, bne_iff_ne, ne_eq, not_exists, not_and, not_not] at h
    refine ⟨⟨fun hf => absurd hf (by decide), ?_⟩, ⟨fun _ => h, fun _ => rfl⟩⟩
    rintro ⟨v, hvX, hv⟩
    exact absurd (h v hvX) hv

/-- C10: on every rank-2 integer tensor, `exists` is defined and returns TRUE
exactly when some entry is nonzero and FALSE exactly when the tensor is all
zero (the notebook applies `exists` to the predicate tensor `iscat`
directly). -/
theorem exists_matrix_spec (M : List (List Int)) :
    (existsM M = t ↔ ∃ row ∈ M, ∃ v ∈ row, v ≠ 0) ∧
    (existsM M = f ↔ ∀ row ∈ M, ∀ v ∈ row, v = 0) := by
  unfold existsM
  by_cases h : M.any (fun row => row.any (fun v => v != 0)) = true
  · rw [if_pos h]
    simp only [List.any_eq_true, bne_iff_ne, ne_eq] at h
    obtain ⟨row, hrM, v, hvr, hv⟩ := h
    exact ⟨⟨fun _ => ⟨row, hrM, v, hvr, hv⟩, fun _ => rfl⟩,
      ⟨fun ht => absurd ht (by decide), fun hall => absurd (hall row hrM v hvr) hv⟩⟩
  · rw [if_neg h]
    simp only [List.any_eq_true, bne_iff_ne, ne_eq, not_exists, not_and, not_not] at h
    refine ⟨⟨fun hf => absurd hf (by decide), ?_⟩, ⟨fun _ => h, fun _ => rfl⟩⟩
    rintro ⟨row, hrM, v, hvr, hv⟩
    exact absurd (h row hrM v hvr) hv
